import Mathlib

/-!
Shallow embedding of the crypto-portfolio trading ledger
(`convex/trading.ts`, the wallet mutations in `convex/schema.ts`'s
companion wallet module, and the alert loop in `convex/alerts.ts`).

Numbers are modelled as rationals; the database tables `wallet`
(singleton), `assets` and `transactions` become an explicit `State`
record.  Each mutation is a function `State → Except (Err × State) State`:
a thrown error is `.error (e, t)` where `t` is the database state at the
moment of the throw (the platform rolls the mutation back, so proving
`t = s` shows no write precedes any throw).
-/

deriving instance DecidableEq for Except

namespace Portfolio

/-- Error kinds thrown by the ledger mutations, one per `throw new Error`
site in the source: non-positive numeric input, wallet balance too low,
selling a symbol never held, selling more than held, and the JS crash
that would occur if `wallet!._id` were dereferenced while no wallet row
exists. -/
inductive Err where
  | invalidAmount
  | insufficientFunds
  | noPosition
  | insufficientQuantity
  | nullWalletDeref
  deriving DecidableEq, Repr

/-- A row of the `assets` table: one held symbol with quantity and
weighted-average buy price. -/
structure Asset where
  symbol : String
  quantity : ℚ
  avgBuyPrice : ℚ
  deriving DecidableEq, Repr

/-- The `type` field of a transaction record. -/
inductive TxnType where
  | deposit
  | withdraw
  | buy
  | sell
  deriving DecidableEq, Repr

/-- A row of the `transactions` table. -/
structure Txn where
  type : TxnType
  symbol : Option String
  quantity : ℚ
  price : Option ℚ
  total : ℚ
  timestamp : ℕ
  deriving DecidableEq, Repr

/-- The persisted database state: the singleton `wallet` row (absent
until first created), the `assets` table and the append-only
`transactions` log. -/
structure State where
  wallet : Option ℚ
  assets : List Asset
  transactions : List Txn
  deriving DecidableEq, Repr

/-- The empty store: no wallet row, no assets, no transactions. -/
def State.empty : State := ⟨none, [], []⟩

/-- `ctx.db.query('assets').filter(q.eq('symbol', sym)).first()`:
first asset row whose symbol matches. -/
def findAsset (assets : List Asset) (sym : String) : Option Asset :=
  assets.find? (fun a => a.symbol == sym)

/-- `ctx.db.patch(id, ...)` on the row `filter(...).first()` returned:
apply `f` to the first row matching `sym`, leave the rest unchanged. -/
def patchAsset (assets : List Asset) (sym : String) (f : Asset → Asset) :
    List Asset :=
  match assets with
  | [] => []
  | a :: rest =>
      if a.symbol == sym then f a :: rest
      else a :: patchAsset rest sym f

/-- `ctx.db.delete(id)` on the row `filter(...).first()` returned:
remove the first row matching `sym`. -/
def deleteAsset (assets : List Asset) (sym : String) : List Asset :=
  match assets with
  | [] => []
  | a :: rest =>
      if a.symbol == sym then rest
      else a :: deleteAsset rest sym

/-- `wallet?.balance ?? 0`: the balance of the singleton wallet row,
`0` when the wallet was never created.  This is also the handler of the
`getBalance` query. -/
def getBalance (s : State) : ℚ :=
  s.wallet.getD 0

/-- `deposit(amount)` mutation (wallet module): rejects `amount ≤ 0`,
adds to the wallet balance (creating the wallet row if absent) and
appends a `deposit` transaction with `total = amount`. -/
def deposit (s : State) (amount : ℚ) (now : ℕ) : Except (Err × State) State :=
  if amount ≤ 0 then .error (.invalidAmount, s)
  else
    let s₁ : State :=
      match s.wallet with
      | some b => { s with wallet := some (b + amount) }
      | none => { s with wallet := some amount }
    .ok { s₁ with transactions := s₁.transactions ++
      [⟨.deposit, none, amount, none, amount, now⟩] }

/-- `withdraw(amount)` mutation (wallet module): rejects `amount ≤ 0`,
rejects `amount > balance`, then patches `wallet!._id` (crashing with
`nullWalletDeref` if no wallet row exists at that point) and appends a
`withdraw` transaction with `total = amount`. -/
def withdraw (s : State) (amount : ℚ) (now : ℕ) : Except (Err × State) State :=
  if amount ≤ 0 then .error (.invalidAmount, s)
  else
    let balance := getBalance s
    if amount > balance then .error (.insufficientFunds, s)
    else
      match s.wallet with
      | none => .error (.nullWalletDeref, s)
      | some _ =>
        .ok { s with
          wallet := some (balance - amount),
          transactions := s.transactions ++
            [⟨.withdraw, none, amount, none, amount, now⟩] }

/-- `buy(symbol, quantity, price)` mutation (`convex/trading.ts`):
validates `quantity > 0` and `price > 0`, computes `total`, rejects
`total > balance`, debits the wallet via `wallet!._id`, then either
patches the existing position (weighted-average recomputation) or
inserts a fresh one, and appends a `buy` transaction. -/
def buy (s : State) (symbol : String) (quantity price : ℚ) (now : ℕ) :
    Except (Err × State) State :=
  if quantity ≤ 0 then .error (.invalidAmount, s)
  else if price ≤ 0 then .error (.invalidAmount, s)
  else
    let total := quantity * price
    let balance := getBalance s
    if total > balance then .error (.insufficientFunds, s)
    else
      match s.wallet with
      | none => .error (.nullWalletDeref, s)
      | some _ =>
        let s₁ : State := { s with wallet := some (balance - total) }
        let s₂ : State :=
          match findAsset s₁.assets symbol with
          | some existing =>
            let totalValue := existing.quantity * existing.avgBuyPrice + total
            let totalQuantity := existing.quantity + quantity
            let newAvgPrice := totalValue / totalQuantity
            let patched := patchAsset s₁.assets symbol
              (fun a => { a with quantity := totalQuantity,
                                 avgBuyPrice := newAvgPrice })
            { s₁ with assets := patched }
          | none =>
            { s₁ with assets := s₁.assets ++ [⟨symbol, quantity, price⟩] }
        .ok { s₂ with transactions := s₂.transactions ++
          [⟨.buy, some symbol, quantity, some price, total, now⟩] }

/-- `sell(symbol, quantity, price)` mutation (`convex/trading.ts`):
validates `quantity > 0` and `price > 0`, requires an open position and
`quantity ≤` held quantity, credits the wallet (creating the row if
absent), patches the position's quantity or deletes the row when the
remainder is `≤ 0`, and appends a `sell` transaction. -/
def sell (s : State) (symbol : String) (quantity price : ℚ) (now : ℕ) :
    Except (Err × State) State :=
  if quantity ≤ 0 then .error (.invalidAmount, s)
  else if price ≤ 0 then .error (.invalidAmount, s)
  else
    match findAsset s.assets symbol with
    | none => .error (.noPosition, s)
    | some asset =>
      if quantity > asset.quantity then .error (.insufficientQuantity, s)
      else
        let total := quantity * price
        let s₁ : State :=
          match s.wallet with
          | some b => { s with wallet := some (b + total) }
          | none => { s with wallet := some total }
        let remainingQuantity := asset.quantity - quantity
        let s₂ : State :=
          if remainingQuantity ≤ 0 then
            { s₁ with assets := deleteAsset s₁.assets symbol }
          else
            let patched := patchAsset s₁.assets symbol
              (fun a => { a with quantity := remainingQuantity })
            { s₁ with assets := patched }
        .ok { s₂ with transactions := s₂.transactions ++
          [⟨.sell, some symbol, quantity, some price, total, now⟩] }

/-! ### Alert monitor (`convex/alerts.ts`) -/

/-- `PRICE_CHANGE_THRESHOLD = 5`: trigger an alert if the absolute 24h
price change percentage reaches this value. -/
def PRICE_CHANGE_THRESHOLD : ℚ := 5

/-- The `type` field of a notification record. -/
inductive NotifType where
  | price_up
  | price_down
  deriving DecidableEq, Repr

/-- A row of the `notifications` table. -/
structure Notif where
  symbol : String
  type : NotifType
  priceChange : ℚ
  currentPrice : ℚ
  aiAnalysis : String
  timestamp : ℕ
  read : Bool
  deriving DecidableEq, Repr

/-- One exchange 24h ticker entry, already parsed to numbers
(`parseFloat` of `priceChangePercent` and `lastPrice`). -/
structure Ticker where
  symbol : String
  priceChangePercent : ℚ
  lastPrice : ℚ
  deriving DecidableEq, Repr

/-- Body of the `checkPriceAlerts` loop for a single ticker: skip when
`|priceChange| < PRICE_CHANGE_THRESHOLD`, otherwise classify the
direction, obtain the commentary via `gen` (the external analysis
generator, fallback included) and build the notification row that
`createNotification` inserts (`read := false`). -/
def processTicker (gen : String → ℚ → ℚ → NotifType → String) (now : ℕ)
    (ticker : Ticker) : Option Notif :=
  let symbol := ticker.symbol.replace "USDT" ""
  let priceChange := ticker.priceChangePercent
  let currentPrice := ticker.lastPrice
  if |priceChange| < PRICE_CHANGE_THRESHOLD then none
  else
    let type : NotifType :=
      if priceChange > 0 then .price_up else .price_down
    let aiAnalysis := gen symbol priceChange currentPrice type
    some ⟨symbol, type, priceChange, currentPrice, aiAnalysis, now, false⟩

/-- The `checkPriceAlerts` loop over the fetched tickers: threads the
notifications table and the `alertsCreated` counter through each
iteration. -/
def checkPriceAlerts (gen : String → ℚ → ℚ → NotifType → String) (now : ℕ) :
    List Ticker → List Notif → ℕ → List Notif × ℕ
  | [], notifs, alertsCreated => (notifs, alertsCreated)
  | ticker :: rest, notifs, alertsCreated =>
    match processTicker gen now ticker with
    | none => checkPriceAlerts gen now rest notifs alertsCreated
    | some n => checkPriceAlerts gen now rest (notifs ++ [n]) (alertsCreated + 1)

/-! ### Helper lemmas about the asset-table primitives -/

theorem findAsset_patchAsset (l : List Asset) (sym : String) (f : Asset → Asset)
    (hf : ∀ a, (f a).symbol = a.symbol) :
    findAsset (patchAsset l sym f) sym = (findAsset l sym).map f := by
  induction l with
  | nil => simp [findAsset, patchAsset]
  | cons a rest ih =>
    by_cases h : a.symbol == sym
    · simp [findAsset, patchAsset, List.find?, h, hf]
    · simpa [findAsset, patchAsset, List.find?, h] using ih

theorem findAsset_append (l₁ l₂ : List Asset) (sym : String)
    (h : findAsset l₁ sym = none) :
    findAsset (l₁ ++ l₂) sym = findAsset l₂ sym := by
  induction l₁ with
  | nil => simp [findAsset]
  | cons a rest ih =>
    by_cases ha : a.symbol == sym
    · simp [findAsset, List.find?, ha] at h
    · simp only [findAsset, List.find?, List.cons_append, ha] at h ⊢
      exact ih h

theorem patchAsset_of_not_found (l : List Asset) (sym : String) (f : Asset → Asset)
    (h : findAsset l sym = none) : patchAsset l sym f = l := by
  induction l with
  | nil => simp [patchAsset]
  | cons a rest ih =>
    by_cases ha : a.symbol == sym
    · simp [findAsset, List.find?, ha] at h
    · simp only [findAsset, List.find?, ha] at h
      simp [patchAsset, ha, ih h]

theorem findAsset_deleteAsset (l : List Asset) (sym : String)
    (hcount : l.countP (fun a => a.symbol == sym) ≤ 1) :
    findAsset (deleteAsset l sym) sym = none := by
  induction l with
  | nil => simp [findAsset, deleteAsset]
  | cons a rest ih =>
    by_cases ha : a.symbol == sym
    · simp only [deleteAsset, ha, if_pos]
      simp only [List.countP_cons, ha, if_pos] at hcount
      have hzero : rest.countP (fun a => a.symbol == sym) = 0 := by omega
      rw [List.countP_eq_zero] at hzero
      simp only [findAsset]
      rw [List.find?_eq_none]
      intro x hx
      simpa using hzero x hx
    · simp only [List.countP_cons, ha] at hcount
      simp only [deleteAsset, ha, if_neg, Bool.false_eq_true, not_false_iff,
        findAsset, List.find?]
      exact ih (by omega)

/-! ### Success inversion for each mutation -/

/-- The transaction row a successful `deposit` appends. -/
def depositTxn (amount : ℚ) (now : ℕ) : Txn :=
  ⟨.deposit, none, amount, none, amount, now⟩

/-- The transaction row a successful `withdraw` appends. -/
def withdrawTxn (amount : ℚ) (now : ℕ) : Txn :=
  ⟨.withdraw, none, amount, none, amount, now⟩

/-- The transaction row a successful `buy` appends. -/
def buyTxn (symbol : String) (quantity price : ℚ) (now : ℕ) : Txn :=
  ⟨.buy, some symbol, quantity, some price, quantity * price, now⟩

/-- The transaction row a successful `sell` appends. -/
def sellTxn (symbol : String) (quantity price : ℚ) (now : ℕ) : Txn :=
  ⟨.sell, some symbol, quantity, some price, quantity * price, now⟩

theorem deposit_ok {s : State} {amount : ℚ} {now : ℕ} {s' : State}
    (h : deposit s amount now = .ok s') :
    0 < amount ∧ s'.wallet = some (getBalance s + amount) ∧
    s'.assets = s.assets ∧
    s'.transactions = s.transactions ++ [depositTxn amount now] := by
  rcases hw : s.wallet with _ | b <;>
    simp only [deposit, hw, getBalance, Option.getD] at h ⊢ <;>
    split_ifs at h with h1 <;>
    obtain ⟨rfl⟩ := Except.ok.inj h <;>
    refine ⟨by linarith, by simp, rfl, rfl⟩

theorem withdraw_ok {s : State} {amount : ℚ} {now : ℕ} {s' : State}
    (h : withdraw s amount now = .ok s') :
    0 < amount ∧ amount ≤ getBalance s ∧
    s'.wallet = some (getBalance s - amount) ∧
    s'.assets = s.assets ∧
    s'.transactions = s.transactions ++ [withdrawTxn amount now] := by
  rcases hw : s.wallet with _ | b <;>
    simp only [withdraw, hw, getBalance, Option.getD] at h ⊢ <;>
    split_ifs at h with h1 h2
  · obtain ⟨rfl⟩ := Except.ok.inj h
    exact ⟨by linarith, by linarith, rfl, rfl, rfl⟩

theorem buy_ok {s : State} {symbol : String} {quantity price : ℚ} {now : ℕ}
    {s' : State} (h : buy s symbol quantity price now = .ok s') :
    0 < quantity ∧ 0 < price ∧ quantity * price ≤ getBalance s ∧
    s'.wallet = some (getBalance s - quantity * price) ∧
    s'.transactions = s.transactions ++ [buyTxn symbol quantity price now] ∧
    s'.assets =
      (match findAsset s.assets symbol with
       | some existing =>
         patchAsset s.assets symbol
           (fun a => { a with
             quantity := existing.quantity + quantity,
             avgBuyPrice := (existing.quantity * existing.avgBuyPrice +
               quantity * price) / (existing.quantity + quantity) })
       | none => s.assets ++ [⟨symbol, quantity, price⟩]) := by
  rcases hw : s.wallet with _ | b <;>
    simp only [buy, hw, getBalance, Option.getD] at h ⊢ <;>
    split_ifs at h with h1 h2 h3
  rcases hf : findAsset s.assets symbol with _ | existing <;>
    simp only [hf] at h ⊢ <;>
    obtain ⟨rfl⟩ := Except.ok.inj h <;>
    exact ⟨by linarith, by linarith, by linarith, rfl, rfl, rfl⟩

theorem sell_ok {s : State} {symbol : String} {quantity price : ℚ} {now : ℕ}
    {s' : State} (h : sell s symbol quantity price now = .ok s') :
    0 < quantity ∧ 0 < price ∧
    ∃ asset, findAsset s.assets symbol = some asset ∧
      quantity ≤ asset.quantity ∧
      s'.wallet = some (getBalance s + quantity * price) ∧
      s'.transactions = s.transactions ++ [sellTxn symbol quantity price now] ∧
      s'.assets =
        (if asset.quantity - quantity ≤ 0 then deleteAsset s.assets symbol
         else patchAsset s.assets symbol
           (fun a => { a with quantity := asset.quantity - quantity })) := by
  rcases hf : findAsset s.assets symbol with _ | asset
  · simp only [sell, hf, getBalance] at h
    split_ifs at h
  · simp only [sell, hf, getBalance] at h ⊢
    split_ifs at h with h1 h2 h3 h4 <;>
      rcases hw : s.wallet with _ | b <;>
      simp only [hw, Option.getD] at h ⊢ <;>
      obtain ⟨rfl⟩ := Except.ok.inj h <;>
      refine ⟨by linarith, by linarith, asset, rfl, by linarith, by simp, rfl, ?_⟩
    · rw [if_pos h4]
    · rw [if_pos h4]
    · rw [if_neg h4]
    · rw [if_neg h4]

/-! ### Every throw happens before any database write -/

theorem deposit_error {s : State} {amount : ℚ} {now : ℕ} {e : Err} {t : State}
    (h : deposit s amount now = .error (e, t)) : t = s := by
  rcases hw : s.wallet with _ | b <;>
    simp only [deposit, hw] at h <;>
    split_ifs at h <;>
    simp_all

theorem withdraw_error {s : State} {amount : ℚ} {now : ℕ} {e : Err} {t : State}
    (h : withdraw s amount now = .error (e, t)) : t = s := by
  rcases hw : s.wallet with _ | b <;>
    simp only [withdraw, hw, getBalance, Option.getD] at h <;>
    split_ifs at h <;>
    simp_all

theorem buy_error {s : State} {symbol : String} {quantity price : ℚ} {now : ℕ}
    {e : Err} {t : State} (h : buy s symbol quantity price now = .error (e, t)) :
    t = s := by
  rcases hw : s.wallet with _ | b <;>
    rcases hf : findAsset s.assets symbol with _ | existing <;>
    simp only [buy, hw, hf, getBalance, Option.getD] at h <;>
    split_ifs at h <;>
    simp_all

theorem sell_error {s : State} {symbol : String} {quantity price : ℚ} {now : ℕ}
    {e : Err} {t : State} (h : sell s symbol quantity price now = .error (e, t)) :
    t = s := by
  rcases hw : s.wallet with _ | b <;>
    rcases hf : findAsset s.assets symbol with _ | asset <;>
    simp only [sell, hw, hf, getBalance, Option.getD] at h <;>
    split_ifs at h <;>
    simp_all

/-! ### Reachable states and derived quantities -/

/-- States reachable from the empty store by successful ledger
mutations. -/
inductive Reach : State → Prop where
  | empty : Reach State.empty
  | deposit {s s' : State} {amount : ℚ} {now : ℕ} :
      Reach s → deposit s amount now = .ok s' → Reach s'
  | withdraw {s s' : State} {amount : ℚ} {now : ℕ} :
      Reach s → withdraw s amount now = .ok s' → Reach s'
  | buy {s s' : State} {symbol : String} {quantity price : ℚ} {now : ℕ} :
      Reach s → buy s symbol quantity price now = .ok s' → Reach s'
  | sell {s s' : State} {symbol : String} {quantity price : ℚ} {now : ℕ} :
      Reach s → sell s symbol quantity price now = .ok s' → Reach s'

/-- The signed contribution of one transaction: deposits and sells are
inflows, withdrawals and buys outflows. -/
def signedTotal (t : Txn) : ℚ :=
  match t.type with
  | .deposit => t.total
  | .sell => t.total
  | .withdraw => -t.total
  | .buy => -t.total

/-- Signed sum of all transaction totals in the log. -/
def signedSum (l : List Txn) : ℚ :=
  (l.map signedTotal).sum

theorem signedSum_append (l₁ l₂ : List Txn) :
    signedSum (l₁ ++ l₂) = signedSum l₁ + signedSum l₂ := by
  simp [signedSum]

/-- A deposit or withdraw request, for sequences of wallet-only
operations. -/
inductive DWOp where
  | deposit (amount : ℚ)
  | withdraw (amount : ℚ)
  deriving DecidableEq, Repr

/-- Run a sequence of deposit/withdraw requests, stopping at the first
error. -/
def applyDW (s : State) : List DWOp → Except (Err × State) State
  | [] => .ok s
  | op :: rest =>
    match (match op with
           | .deposit amount => deposit s amount 0
           | .withdraw amount => withdraw s amount 0) with
    | .ok s' => applyDW s' rest
    | .error e => .error e

/-- Signed sum of a deposit/withdraw request list. -/
def signedDW (l : List DWOp) : ℚ :=
  (l.map (fun op => match op with
    | .deposit amount => amount
    | .withdraw amount => -amount)).sum

/-- Run a sequence of buy requests `(quantity, price)` for one symbol,
stopping at the first error. -/
def applyBuys (sym : String) (s : State) : List (ℚ × ℚ) → Except (Err × State) State
  | [] => .ok s
  | (quantity, price) :: rest =>
    match buy s sym quantity price 0 with
    | .ok s' => applyBuys sym s' rest
    | .error e => .error e

/-- Total quantity bought across a buy request list. -/
def qtySum (l : List (ℚ × ℚ)) : ℚ := (l.map Prod.fst).sum

/-- Total cost (quantity × price summed) across a buy request list. -/
def costSum (l : List (ℚ × ℚ)) : ℚ := (l.map (fun qp => qp.1 * qp.2)).sum

/-- Quantity currently held in `sym` (0 when no position). -/
def posQty (s : State) (sym : String) : ℚ :=
  match findAsset s.assets sym with
  | some a => a.quantity
  | none => 0

/-- Current quantity × average cost for `sym` (0 when no position). -/
def posVal (s : State) (sym : String) : ℚ :=
  match findAsset s.assets sym with
  | some a => a.quantity * a.avgBuyPrice
  | none => 0

/-- Average buy price of the `sym` position (0 when no position). -/
def posAvg (s : State) (sym : String) : ℚ :=
  match findAsset s.assets sym with
  | some a => a.avgBuyPrice
  | none => 0

/-! ### Effect of one buy on the tracked position -/

theorem buy_pos_step {s : State} {sym : String} {q p : ℚ} {now : ℕ} {s' : State}
    (h : buy s sym q p now = .ok s') (hnn : 0 ≤ posQty s sym) :
    posQty s' sym = posQty s sym + q ∧ posVal s' sym = posVal s sym + q * p := by
  obtain ⟨hq, _, _, _, _, hassets⟩ := buy_ok h
  rcases hf : findAsset s.assets sym with _ | a
  · simp only [hf] at hassets
    have hfind : findAsset s'.assets sym = some ⟨sym, q, p⟩ := by
      rw [hassets, findAsset_append _ _ _ hf]
      simp [findAsset, List.find?]
    simp [posQty, posVal, hfind, hf]
  · simp only [hf] at hassets
    have hnz : a.quantity + q ≠ 0 := by
      have : posQty s sym = a.quantity := by simp [posQty, hf]
      nlinarith [hnn, hq, this]
    have hfind : findAsset s'.assets sym =
        some { a with quantity := a.quantity + q,
                      avgBuyPrice := (a.quantity * a.avgBuyPrice + q * p) /
                        (a.quantity + q) } := by
      rw [hassets, findAsset_patchAsset s.assets sym
        (fun b => { b with quantity := a.quantity + q,
                           avgBuyPrice := (a.quantity * a.avgBuyPrice + q * p) /
                             (a.quantity + q) })
        (fun _ => rfl), hf]
      rfl
    constructor
    · simp [posQty, hfind, hf]
    · simp only [posVal, hfind, hf]
      field_simp

/-- Invariant carried through a list of buys on one symbol: the held
quantity grows by the summed quantity, the held value by the summed
cost, and a nonempty successful list has positive total quantity. -/
theorem applyBuys_ok {sym : String} {l : List (ℚ × ℚ)} {s s' : State}
    (h : applyBuys sym s l = .ok s') (hnn : 0 ≤ posQty s sym) :
    0 ≤ qtySum l ∧ (l ≠ [] → 0 < qtySum l) ∧
    posQty s' sym = posQty s sym + qtySum l ∧
    posVal s' sym = posVal s sym + costSum l := by
  induction l generalizing s with
  | nil =>
    simp only [applyBuys] at h
    obtain ⟨rfl⟩ := Except.ok.inj h
    simp [qtySum, costSum]
  | cons qp rest ih =>
    obtain ⟨q, p⟩ := qp
    simp only [applyBuys] at h
    rcases hb : buy s sym q p 0 with e | s₁ <;> simp only [hb] at h
    · exact absurd h (by simp)
    obtain ⟨hq, _, _, _, _, _⟩ := buy_ok hb
    obtain ⟨hQ, hV⟩ := buy_pos_step hb hnn
    have hnn₁ : 0 ≤ posQty s₁ sym := by rw [hQ]; linarith
    obtain ⟨hge, _, ihQ, ihV⟩ := ih h hnn₁
    refine ⟨?_, ?_, ?_, ?_⟩
    · simp only [qtySum, List.map_cons, List.sum_cons] at *
      linarith
    · intro _
      simp only [qtySum, List.map_cons, List.sum_cons] at *
      linarith
    · rw [ihQ, hQ]
      simp only [qtySum, List.map_cons, List.sum_cons]
      ring
    · rw [ihV, hV]
      simp only [costSum, List.map_cons, List.sum_cons]
      ring

/-! ### Wallet-only sequences -/

theorem applyDW_ok {l : List DWOp} {s s' : State}
    (h : applyDW s l = .ok s') :
    getBalance s' = getBalance s + signedDW l := by
  induction l generalizing s with
  | nil =>
    simp only [applyDW] at h
    obtain ⟨rfl⟩ := Except.ok.inj h
    simp [signedDW]
  | cons op rest ih =>
    rcases op with amount | amount <;>
      simp only [applyDW] at h
    · rcases hd : deposit s amount 0 with e | s₁ <;> simp only [hd] at h
      · exact absurd h (by simp)
      obtain ⟨_, hw, _, _⟩ := deposit_ok hd
      have : getBalance s₁ = getBalance s + amount := by simp [getBalance, hw]
      rw [ih h, this]
      simp only [signedDW, List.map_cons, List.sum_cons]
      ring
    · rcases hd : withdraw s amount 0 with e | s₁ <;> simp only [hd] at h
      · exact absurd h (by simp)
      obtain ⟨_, _, hw, _, _⟩ := withdraw_ok hd
      have : getBalance s₁ = getBalance s - amount := by simp [getBalance, hw]
      rw [ih h, this]
      simp only [signedDW, List.map_cons, List.sum_cons]
      ring

/-! ### Invariants of reachable states -/

theorem getBalance_some {s : State} {b : ℚ} (h : s.wallet = some b) :
    getBalance s = b := by
  simp [getBalance, h]

theorem reach_balance_nonneg {s : State} (h : Reach s) : 0 ≤ getBalance s := by
  induction h with
  | empty => simp [getBalance, State.empty]
  | deposit _ hop ih =>
    obtain ⟨ha, hw, _, _⟩ := deposit_ok hop
    rw [getBalance_some hw]
    linarith
  | withdraw _ hop ih =>
    obtain ⟨_, hle, hw, _, _⟩ := withdraw_ok hop
    rw [getBalance_some hw]
    linarith
  | buy _ hop ih =>
    obtain ⟨_, _, hle, hw, _, _⟩ := buy_ok hop
    rw [getBalance_some hw]
    linarith
  | sell _ hop ih =>
    obtain ⟨hq, hp, _, _, _, hw, _, _⟩ := sell_ok hop
    rw [getBalance_some hw]
    nlinarith

theorem reach_signedSum {s : State} (h : Reach s) :
    signedSum s.transactions = getBalance s := by
  induction h with
  | empty => simp [signedSum, getBalance, State.empty]
  | deposit _ hop ih =>
    obtain ⟨_, hw, _, ht⟩ := deposit_ok hop
    rw [ht, signedSum_append, ih, getBalance_some hw]
    simp [signedSum, signedTotal, depositTxn]
  | withdraw _ hop ih =>
    obtain ⟨_, _, hw, _, ht⟩ := withdraw_ok hop
    rw [ht, signedSum_append, ih, getBalance_some hw]
    simp [signedSum, signedTotal, withdrawTxn]
    ring
  | buy _ hop ih =>
    obtain ⟨_, _, _, hw, ht, _⟩ := buy_ok hop
    rw [ht, signedSum_append, ih, getBalance_some hw]
    simp [signedSum, signedTotal, buyTxn]
    ring
  | sell _ hop ih =>
    obtain ⟨_, _, _, _, _, hw, ht, _⟩ := sell_ok hop
    rw [ht, signedSum_append, ih, getBalance_some hw]
    simp [signedSum, signedTotal, sellTxn]

/-- A buy with positive quantity and price, priced within the wallet
balance, succeeds. -/
theorem buy_succeeds (s : State) (sym : String) (quantity price : ℚ)
    (now : ℕ) (hq : 0 < quantity) (hp : 0 < price)
    (hb : quantity * price ≤ getBalance s) :
    ∃ s', buy s sym quantity price now = .ok s' := by
  rcases hw : s.wallet with _ | b
  · exfalso
    rw [getBalance, hw] at hb
    simp only [Option.getD_none] at hb
    nlinarith
  · simp only [buy, hw]
    rw [if_neg (by linarith), if_neg (by linarith), if_neg (by linarith)]
    rcases hf : findAsset s.assets sym with _ | a <;> simp only [hf] <;>
      exact ⟨_, rfl⟩

/-! ### Claim theorems -/

/-- C1: a funded `buy(symbol, quantity, price)` with positive quantity and
price succeeds; if a position for `symbol` exists with quantity
`existingQty` and average cost `existingAvg` it becomes
`(existingQty*existingAvg + quantity*price) / (existingQty+quantity)` with
quantity `existingQty+quantity`; otherwise a new position is created with
`quantity = quantity` and `avgBuyPrice = price`. -/
theorem buy_updates_position (s : State) (sym : String) (quantity price : ℚ)
    (now : ℕ) (hq : 0 < quantity) (hp : 0 < price)
    (hb : quantity * price ≤ getBalance s) :
    ∃ s', buy s sym quantity price now = .ok s' ∧
      (∀ a, findAsset s.assets sym = some a →
        findAsset s'.assets sym =
          some { a with quantity := a.quantity + quantity,
                        avgBuyPrice := (a.quantity * a.avgBuyPrice +
                          quantity * price) / (a.quantity + quantity) }) ∧
      (findAsset s.assets sym = none →
        findAsset s'.assets sym = some ⟨sym, quantity, price⟩) := by
  obtain ⟨s', hok⟩ := buy_succeeds s sym quantity price now hq hp hb
  obtain ⟨_, _, _, _, _, hassets⟩ := buy_ok hok
  refine ⟨s', hok, ?_, ?_⟩
  · intro a hf
    simp only [hf] at hassets
    rw [hassets, findAsset_patchAsset s.assets sym
      (fun c => { c with quantity := a.quantity + quantity,
                         avgBuyPrice := (a.quantity * a.avgBuyPrice +
                           quantity * price) / (a.quantity + quantity) })
      (fun _ => rfl), hf]
    rfl
  · intro hf
    simp only [hf] at hassets
    rw [hassets, findAsset_append _ _ _ hf]
    simp [findAsset, List.find?]

/-- Witness for C1: buying 1 at 70000 into a BTC position of quantity 1
and average cost 50000 yields quantity 2 and average cost 60000. -/
theorem buy_updates_position_witness :
    ∃ s', buy ⟨some 100000, [⟨"BTC", 1, 50000⟩], []⟩ "BTC" 1 70000 0 = .ok s' ∧
      findAsset s'.assets "BTC" = some ⟨"BTC", 2, 60000⟩ := by
  obtain ⟨s', hok, hsome, -⟩ :=
    buy_updates_position ⟨some 100000, [⟨"BTC", 1, 50000⟩], []⟩ "BTC" 1 70000 0
      (by norm_num) (by norm_num) (by norm_num [getBalance])
  refine ⟨s', hok, ?_⟩
  rw [hsome ⟨"BTC", 1, 50000⟩ (by norm_num [findAsset, List.find?])]
  norm_num

/-- C2: starting from no position in `sym`, any successful sequence of
buys leaves `avgBuyPrice` equal to total cost over total quantity, and
any permutation of the sequence that also succeeds yields the same
average. -/
theorem buy_weighted_average (sym : String) (l l' : List (ℚ × ℚ))
    (s t s' t' : State) (hperm : l.Perm l') (hl : l ≠ [])
    (hs : findAsset s.assets sym = none) (ht : findAsset t.assets sym = none)
    (h1 : applyBuys sym s l = .ok s') (h2 : applyBuys sym t l' = .ok t') :
    posAvg s' sym = costSum l / qtySum l ∧ posAvg t' sym = posAvg s' sym := by
  have hq0 : posQty s sym = 0 := by simp [posQty, hs]
  have hv0 : posVal s sym = 0 := by simp [posVal, hs]
  have hq0' : posQty t sym = 0 := by simp [posQty, ht]
  have hv0' : posVal t sym = 0 := by simp [posVal, ht]
  have key : ∀ (u u' : State) (m : List (ℚ × ℚ)), posQty u sym = 0 →
      posVal u sym = 0 → applyBuys sym u m = .ok u' → m ≠ [] →
      posAvg u' sym = costSum m / qtySum m := by
    intro u u' m hu hv h hm
    obtain ⟨_, hpos, hQ, hV⟩ := applyBuys_ok h (by rw [hu])
    rw [hu] at hQ
    rw [hv] at hV
    have hqpos : 0 < qtySum m := hpos hm
    rcases hfind : findAsset u'.assets sym with _ | a
    · exfalso
      simp only [posQty, hfind] at hQ
      linarith
    · simp only [posQty, hfind] at hQ
      simp only [posVal, hfind] at hV
      simp only [posAvg, hfind]
      rw [zero_add] at hQ hV
      rw [← hQ, ← hV]
      rw [eq_div_iff (by rw [hQ]; linarith)]
      ring
  have e1 : posAvg s' sym = costSum l / qtySum l := key s s' l hq0 hv0 h1 hl
  have hl' : l' ≠ [] := by
    intro hnil
    exact hl (List.Perm.eq_nil (hnil ▸ hperm))
  have e2 : posAvg t' sym = costSum l' / qtySum l' := key t t' l' hq0' hv0' h2 hl'
  have hcost : costSum l' = costSum l := by
    simp only [costSum]
    exact (hperm.map _).sum_eq.symm
  have hqty : qtySum l' = qtySum l := by
    simp only [qtySum]
    exact (hperm.map _).sum_eq.symm
  exact ⟨e1, by rw [e2, hcost, hqty, e1]⟩

/-- Witness for C2: buying (1, 50000) then (1, 70000) from a fresh wallet
of 200000, or the two buys in the other order, both give average 60000 =
120000/2. -/
theorem buy_weighted_average_witness :
    [((1 : ℚ), (50000 : ℚ)), (1, 70000)].Perm [(1, 70000), (1, 50000)] ∧
    ∃ s' t', applyBuys "BTC" ⟨some 200000, [], []⟩
        [(1, 50000), (1, 70000)] = .ok s' ∧
      applyBuys "BTC" ⟨some 200000, [], []⟩ [(1, 70000), (1, 50000)] = .ok t' ∧
      posAvg s' "BTC" = 60000 ∧ posAvg t' "BTC" = posAvg s' "BTC" := by
  have hperm : [((1 : ℚ), (50000 : ℚ)), (1, 70000)].Perm
      [(1, 70000), (1, 50000)] := List.Perm.swap _ _ _
  have h1 : applyBuys "BTC" ⟨some 200000, [], []⟩ [(1, 50000), (1, 70000)] =
      .ok ⟨some 80000, [⟨"BTC", 2, 60000⟩],
        [buyTxn "BTC" 1 50000 0, buyTxn "BTC" 1 70000 0]⟩ := by
    norm_num [applyBuys, buy, getBalance, findAsset, List.find?, patchAsset,
      buyTxn]
  have h2 : applyBuys "BTC" ⟨some 200000, [], []⟩ [(1, 70000), (1, 50000)] =
      .ok ⟨some 80000, [⟨"BTC", 2, 60000⟩],
        [buyTxn "BTC" 1 70000 0, buyTxn "BTC" 1 50000 0]⟩ := by
    norm_num [applyBuys, buy, getBalance, findAsset, List.find?, patchAsset,
      buyTxn]
  obtain ⟨e1, e2⟩ := buy_weighted_average "BTC" _ _ _ _ _ _ hperm (by simp)
    (by simp [findAsset]) (by simp [findAsset]) h1 h2
  refine ⟨hperm, _, _, h1, h2, ?_, e2⟩
  rw [e1]
  norm_num [costSum, qtySum]

/-- C3: a valid `sell` on an open position succeeds, credits the wallet
with `quantity*price`, removes the position when the full quantity is
sold, and otherwise only reduces its quantity, leaving `avgBuyPrice`
unchanged. -/
theorem sell_effects (s : State) (sym : String) (quantity price : ℚ)
    (now : ℕ) (a : Asset) (ha : findAsset s.assets sym = some a)
    (hq : 0 < quantity) (hp : 0 < price) (hqa : quantity ≤ a.quantity)
    (hone : s.assets.countP (fun b => b.symbol == sym) ≤ 1) :
    ∃ s', sell s sym quantity price now = .ok s' ∧
      getBalance s' = getBalance s + quantity * price ∧
      s'.transactions = s.transactions ++ [sellTxn sym quantity price now] ∧
      (quantity = a.quantity → findAsset s'.assets sym = none) ∧
      (quantity < a.quantity →
        findAsset s'.assets sym =
          some { a with quantity := a.quantity - quantity }) := by
  have hsucc : ∃ s', sell s sym quantity price now = .ok s' := by
    simp only [sell, ha]
    rw [if_neg (by linarith), if_neg (by linarith), if_neg (by linarith)]
    rcases hw : s.wallet with _ | b <;> simp only [hw] <;>
      split_ifs <;> exact ⟨_, rfl⟩
  obtain ⟨s', hok⟩ := hsucc
  obtain ⟨_, _, asset, hasset, _, hw', ht', hassets⟩ := sell_ok hok
  rw [ha] at hasset
  obtain ⟨rfl⟩ := Option.some.inj hasset
  refine ⟨s', hok, getBalance_some hw', ht', ?_, ?_⟩
  · intro heq
    rw [hassets, if_pos (by linarith)]
    exact findAsset_deleteAsset s.assets sym hone
  · intro hlt
    rw [hassets, if_neg (by linarith)]
    rw [findAsset_patchAsset s.assets sym
      (fun c => { c with quantity := a.quantity - quantity })
      (fun _ => rfl), ha]
    rfl

/-- Witness for C3: selling the full 2 BTC held at average 60000 for
65000 credits 130000 and removes the position. -/
theorem sell_effects_witness :
    ∃ s', sell ⟨some 0, [⟨"BTC", 2, 60000⟩], []⟩ "BTC" 2 65000 0 = .ok s' ∧
      getBalance s' = 130000 ∧ findAsset s'.assets "BTC" = none := by
  obtain ⟨s', hok, hbal, -, hdel, -⟩ :=
    sell_effects ⟨some 0, [⟨"BTC", 2, 60000⟩], []⟩ "BTC" 2 65000 0
      ⟨"BTC", 2, 60000⟩ (by norm_num [findAsset, List.find?]) (by norm_num)
      (by norm_num) (by norm_num) (by norm_num [List.countP, List.countP.go])
  refine ⟨s', hok, ?_, hdel (by norm_num)⟩
  rw [hbal]
  norm_num [getBalance]

/-- C4: for positive quantity and price, `buy` fails with
`InsufficientFunds` exactly when `quantity*price` strictly exceeds the
wallet balance (0 when the wallet was never created); when
`quantity*price ≤ balance` — equality included — the buy succeeds and
debits the wallet. -/
theorem buy_insufficient_funds_iff (s : State) (sym : String)
    (quantity price : ℚ) (now : ℕ) (hq : 0 < quantity) (hp : 0 < price) :
    (buy s sym quantity price now = .error (.insufficientFunds, s) ↔
      getBalance s < quantity * price) ∧
    (quantity * price ≤ getBalance s →
      ∃ s', buy s sym quantity price now = .ok s' ∧
        getBalance s' = getBalance s - quantity * price) := by
  constructor
  · constructor
    · intro herr
      by_contra hnot
      push_neg at hnot
      obtain ⟨s', hok⟩ := buy_succeeds s sym quantity price now hq hp hnot
      rw [hok] at herr
      exact Except.noConfusion herr
    · intro hlt
      simp only [buy]
      rw [if_neg (by linarith), if_neg (by linarith), if_pos (by linarith)]
  · intro hle
    obtain ⟨s', hok⟩ := buy_succeeds s sym quantity price now hq hp hle
    obtain ⟨_, _, _, hw', _, _⟩ := buy_ok hok
    exact ⟨s', hok, getBalance_some hw'⟩

/-- Witness for C4: with balance 0, `buy("BTC", 1, 50000)` fails with
`InsufficientFunds`; after `deposit(100000)` the same buy succeeds,
leaving balance 50000 and a BTC position with `avgBuyPrice` 50000. -/
theorem buy_insufficient_funds_iff_witness :
    buy State.empty "BTC" 1 50000 0 =
      .error (.insufficientFunds, State.empty) ∧
    deposit State.empty 100000 0 = .ok ⟨some 100000, [], [depositTxn 100000 0]⟩ ∧
    ∃ s', buy ⟨some 100000, [], [depositTxn 100000 0]⟩ "BTC" 1 50000 1 = .ok s' ∧
      getBalance s' = 50000 ∧
      findAsset s'.assets "BTC" = some ⟨"BTC", 1, 50000⟩ := by
  refine ⟨?_, ?_, ?_⟩
  · exact (buy_insufficient_funds_iff State.empty "BTC" 1 50000 0
      (by norm_num) (by norm_num)).1.mpr (by norm_num [getBalance, State.empty])
  · norm_num [deposit, State.empty, depositTxn]
  · obtain ⟨s', hok, hbal⟩ :=
      (buy_insufficient_funds_iff ⟨some 100000, [], [depositTxn 100000 0]⟩
        "BTC" 1 50000 1 (by norm_num) (by norm_num)).2
        (by norm_num [getBalance])
    obtain ⟨_, _, _, _, _, hassets⟩ := buy_ok hok
    refine ⟨s', hok, by rw [hbal]; norm_num [getBalance], ?_⟩
    simp only [findAsset] at hassets ⊢
    simp only [List.find?] at hassets
    rw [hassets]
    norm_num [List.find?]

/-- C5: whenever any ledger mutation throws, the database state at the
moment of the throw is exactly the initial state: no write precedes any
validation failure. -/
theorem mutation_errors_leave_state (s : State) (amount quantity price : ℚ)
    (sym : String) (now : ℕ) :
    (∀ e t, deposit s amount now = .error (e, t) → t = s) ∧
    (∀ e t, withdraw s amount now = .error (e, t) → t = s) ∧
    (∀ e t, buy s sym quantity price now = .error (e, t) → t = s) ∧
    (∀ e t, sell s sym quantity price now = .error (e, t) → t = s) :=
  ⟨fun _ _ h => deposit_error h, fun _ _ h => withdraw_error h,
   fun _ _ h => buy_error h, fun _ _ h => sell_error h⟩

/-- Witness for C5: a rejected negative deposit reports the untouched
empty store as its state. -/
theorem mutation_errors_leave_state_witness :
    deposit State.empty (-1) 0 = .error (.invalidAmount, State.empty) ∧
    State.empty = State.empty :=
  ⟨by norm_num [deposit, State.empty],
   (mutation_errors_leave_state State.empty (-1) 0 0 "BTC" 0).1
     .invalidAmount State.empty (by norm_num [deposit, State.empty])⟩

/-- C6: in every state reachable from the empty store by successful
mutations, the signed sum of transaction totals (deposit and sell
positive, withdraw and buy negative) equals the wallet balance. -/
theorem transactions_reconcile_balance (s : State) (h : Reach s) :
    signedSum s.transactions = getBalance s :=
  reach_signedSum h

/-- Witness for C6: the state reached by a single deposit of 100
reconciles. -/
theorem transactions_reconcile_balance_witness :
    signedSum (State.mk (some 100) [] [depositTxn 100 0]).transactions =
      getBalance ⟨some 100, [], [depositTxn 100 0]⟩ := by
  have hd : deposit State.empty 100 0 =
      .ok ⟨some 100, [], [depositTxn 100 0]⟩ := by
    norm_num [deposit, State.empty, depositTxn]
  exact transactions_reconcile_balance _ (Reach.deposit Reach.empty hd)

/-- C7: a successful sequence of deposits and withdrawals starting from
the empty store leaves `getBalance` equal to the signed sum of the
amounts; the balance is never negative in any reachable state; and a
withdrawal strictly exceeding the balance is rejected with the state —
hence the balance — unchanged. -/
theorem wallet_sequences_sound :
    (∀ (l : List DWOp) (s' : State), applyDW State.empty l = .ok s' →
      getBalance s' = signedDW l) ∧
    (∀ s : State, Reach s → 0 ≤ getBalance s) ∧
    (∀ (s : State) (amount : ℚ) (now : ℕ), getBalance s < amount →
      ∃ e, withdraw s amount now = .error (e, s)) := by
  refine ⟨?_, fun s h => reach_balance_nonneg h, ?_⟩
  · intro l s' h
    rw [applyDW_ok h]
    simp [getBalance, State.empty]
  · intro s amount now hlt
    by_cases h0 : amount ≤ 0
    · exact ⟨.invalidAmount, by simp only [withdraw]; rw [if_pos h0]⟩
    · refine ⟨.insufficientFunds, ?_⟩
      simp only [withdraw]
      rw [if_neg h0, if_pos (by linarith)]

/-- Witness for C7: depositing 100 then withdrawing 30 leaves balance 70,
and withdrawing 200 from the resulting state is rejected in place. -/
theorem wallet_sequences_sound_witness :
    (∃ s', applyDW State.empty [.deposit 100, .withdraw 30] = .ok s' ∧
      getBalance s' = signedDW [.deposit 100, .withdraw 30] ∧
      getBalance s' = 70) ∧
    (∃ e, withdraw ⟨some 70, [], []⟩ 200 0 = .error (e, ⟨some 70, [], []⟩)) := by
  constructor
  · have happ : applyDW State.empty [.deposit 100, .withdraw 30] =
        .ok ⟨some 70, [], [depositTxn 100 0, withdrawTxn 30 0]⟩ := by
      norm_num [applyDW, deposit, withdraw, getBalance, State.empty,
        depositTxn, withdrawTxn]
    refine ⟨_, happ, wallet_sequences_sound.1 _ _ happ, ?_⟩
    norm_num [getBalance]
  · exact wallet_sequences_sound.2.2 ⟨some 70, [], []⟩ 200 0
      (by norm_num [getBalance])

/-- C8: every successful mutation appends exactly one transaction record
— with `total = quantity*price` for buy/sell and `total = amount` for
deposit/withdraw — and touches no other transaction record. -/
theorem one_transaction_per_mutation (s s' : State)
    (amount quantity price : ℚ) (sym : String) (now : ℕ) :
    (deposit s amount now = .ok s' →
      s'.transactions = s.transactions ++ [depositTxn amount now]) ∧
    (withdraw s amount now = .ok s' →
      s'.transactions = s.transactions ++ [withdrawTxn amount now]) ∧
    (buy s sym quantity price now = .ok s' →
      s'.transactions = s.transactions ++ [buyTxn sym quantity price now]) ∧
    (sell s sym quantity price now = .ok s' →
      s'.transactions = s.transactions ++ [sellTxn sym quantity price now]) ∧
    (depositTxn amount now).total = amount ∧
    (withdrawTxn amount now).total = amount ∧
    (buyTxn sym quantity price now).total = quantity * price ∧
    (sellTxn sym quantity price now).total = quantity * price := by
  refine ⟨?_, ?_, ?_, ?_, rfl, rfl, rfl, rfl⟩
  · intro h
    exact (deposit_ok h).2.2.2
  · intro h
    exact (withdraw_ok h).2.2.2.2
  · intro h
    exact (buy_ok h).2.2.2.2.1
  · intro h
    obtain ⟨_, _, _, _, _, _, ht, _⟩ := sell_ok h
    exact ht

/-- Witness for C8: a deposit of 100 on the empty store appends exactly
its one transaction record. -/
theorem one_transaction_per_mutation_witness :
    (State.mk (some 100) [] [depositTxn 100 0]).transactions =
      State.empty.transactions ++ [depositTxn 100 0] :=
  (one_transaction_per_mutation State.empty ⟨some 100, [], [depositTxn 100 0]⟩
    100 0 0 "BTC" 0).1 (by norm_num [deposit, State.empty, depositTxn])

set_option maxHeartbeats 1000000 in
/-- C9: an alert-check run creates, for each fetched ticker, exactly one
notification when `|percentChange| ≥ 5` (the boundary value 5 triggers)
and none otherwise; a created notification has type `price_up` when the
percent change is positive and `price_down` otherwise. -/
theorem alert_threshold_classification
    (gen : String → ℚ → ℚ → NotifType → String) (now : ℕ)
    (tickers : List Ticker) (notifs : List Notif) (count : ℕ) :
    checkPriceAlerts gen now tickers notifs count =
      (notifs ++ tickers.filterMap (processTicker gen now),
       count + (tickers.filterMap (processTicker gen now)).length) ∧
    ∀ t : Ticker,
      ((processTicker gen now t).isSome ↔
        PRICE_CHANGE_THRESHOLD ≤ |t.priceChangePercent|) ∧
      (processTicker gen now t).map Notif.type =
        (if PRICE_CHANGE_THRESHOLD ≤ |t.priceChangePercent| then
          some (if 0 < t.priceChangePercent then .price_up else .price_down)
         else none) := by
  constructor
  · induction tickers generalizing notifs count with
    | nil => simp [checkPriceAlerts]
    | cons ticker rest ih =>
      rcases hp : processTicker gen now ticker with _ | n <;>
        simp [checkPriceAlerts, hp, ih, Nat.add_assoc, Nat.add_comm 1]
  · intro t
    by_cases h : |t.priceChangePercent| < PRICE_CHANGE_THRESHOLD
    · constructor
      · simp only [processTicker, if_pos h]
        simp
        linarith
      · simp only [processTicker, if_pos h, if_neg (not_le.mpr h)]
        rfl
    · push_neg at h
      constructor
      · simp only [processTicker, if_neg (not_lt.mpr h)]
        simp [h]
      · simp only [processTicker, if_neg (not_lt.mpr h), if_pos h]
        rfl

/-- C10: when no wallet row exists, `buy` with positive quantity and
price, and `withdraw` with positive amount, both fail with the
insufficient-funds error — never by dereferencing the missing wallet
(`wallet!._id`). -/
theorem missing_wallet_deref_unreachable (s : State) (sym : String)
    (quantity price amount : ℚ) (now : ℕ) (hw : s.wallet = none) :
    (0 < quantity → 0 < price →
      buy s sym quantity price now = .error (.insufficientFunds, s)) ∧
    (0 < amount →
      withdraw s amount now = .error (.insufficientFunds, s)) := by
  have hbal : getBalance s = 0 := by simp [getBalance, hw]
  constructor
  · intro hq hp
    simp only [buy]
    rw [if_neg (by linarith), if_neg (by linarith),
      if_pos (by rw [hbal]; positivity)]
  · intro ha
    simp only [withdraw]
    rw [if_neg (by linarith), if_pos (by rw [hbal]; linarith)]

/-- Witness for C10: on the empty store, `buy("BTC", 1, 1)` and
`withdraw(1)` both report insufficient funds rather than crashing. -/
theorem missing_wallet_deref_unreachable_witness :
    buy State.empty "BTC" 1 1 0 = .error (.insufficientFunds, State.empty) ∧
    withdraw State.empty 1 0 = .error (.insufficientFunds, State.empty) :=
  ⟨(missing_wallet_deref_unreachable State.empty "BTC" 1 1 1 0 rfl).1
      (by norm_num) (by norm_num),
   (missing_wallet_deref_unreachable State.empty "BTC" 1 1 1 0 rfl).2
      (by norm_num)⟩

end Portfolio
